import Mathlib

/-!
Verification development for the rasptank2 actuator control core.

Shallow embedding of the relevant parts of `src/web/RPIservo.py` (servo
motion controller) and `src/modules/movement.py` (drivetrain ramp
controller).  Python floats are modelled as exact rationals (`ℚ`), Python
ints as `ℤ`, Python lists as Lean lists.  `int(round(x, 0))` is modelled by
`pyRound`, Python 3 bankers rounding (round half to even).  Hardware writes
are tracked, where a claim needs them, as the list of channel indices
written; they never change controller state.
-/

/-- Python 3 `round` to an integer: round half to even. -/
def pyRound (q : ℚ) : ℤ :=
  if q - (⌊q⌋ : ℚ) < 1/2 then ⌊q⌋
  else if 1/2 < q - (⌊q⌋ : ℚ) then ⌊q⌋ + 1
  else if ⌊q⌋ % 2 = 0 then ⌊q⌋ else ⌊q⌋ + 1

/-! ## Servo motion controller (src/web/RPIservo.py)

Channel arrays are Python lists of length `servo_num = 8`.  `posUpdate`,
`moveInit` and `certEntry` loop over `range(servo_num)`, which copies every
element of an 8-element list; they are modelled as whole-list assignments.
Hardware writes never modify controller state; the tick-loop models below
therefore omit the `set_angle` call (its driver-state effect and write trace
are modelled separately for the claims that need them). -/

def servo_num : ℕ := 8

def PWM_LED_CHANNEL : ℕ := 5

def SERVO_RELAX : Bool := true

inductive ScMode
  | auto
  | certain
  | wiggle
  | initRegime
  deriving DecidableEq, Repr

structure ServoState where
  sc_direction : List ℤ
  initPos : List ℤ
  goalPos : List ℤ
  nowPos : List ℤ
  bufferPos : List ℚ
  lastPos : List ℤ
  ingGoal : List ℤ
  maxPos : List ℤ
  minPos : List ℤ
  scSpeed : List ℚ
  ctrlRangeMax : ℚ
  ctrlRangeMin : ℚ
  angleRange : ℚ
  scMode : ScMode
  scTime : ℚ
  scSteps : ℕ
  scDelay : ℚ
  scMoveTime : ℚ
  goalUpdate : ℤ
  wiggleID : ℕ
  wiggleDirection : ℤ
  flagSet : Bool
  deriving DecidableEq, Repr

/-- The state built by `ServoCtrl.__init__`. -/
def initState : ServoState where
  sc_direction := [1, 1, 1, 1, 1, 1, 1, 1]
  initPos := [90, 90, 90, 90, 90, 90, 90, 90]
  goalPos := [90, 90, 90, 90, 90, 90, 90, 90]
  nowPos := [90, 90, 90, 90, 90, 90, 90, 90]
  bufferPos := [90, 90, 90, 90, 90, 90, 90, 90]
  lastPos := [90, 90, 90, 90, 90, 90, 90, 90]
  ingGoal := [90, 90, 90, 90, 90, 90, 90, 90]
  maxPos := [180, 180, 180, 180, 180, 180, 180, 180]
  minPos := [0, 0, 0, 0, 0, 0, 0, 0]
  scSpeed := [0, 0, 0, 0, 0, 0, 0, 0]
  ctrlRangeMax := 180
  ctrlRangeMin := 0
  angleRange := 180
  scMode := ScMode.auto
  scTime := 2
  scSteps := 30
  scDelay := 9/100
  scMoveTime := 9/100
  goalUpdate := 0
  wiggleID := 0
  wiggleDirection := 1
  flagSet := false

/-- ServoCtrl.pwmGenOut: int(round((ctrlRangeMax - ctrlRangeMin) / angleRange * angleInput, 0)). -/
def pwmGenOut (s : ServoState) (angleInput : ℚ) : ℤ :=
  pyRound ((s.ctrlRangeMax - s.ctrlRangeMin) / s.angleRange * angleInput)

/-- ServoCtrl.pause: clears the run flag (the relax call only writes hardware). -/
def pause (s : ServoState) : ServoState := { s with flagSet := false }

/-- ServoCtrl.resume: sets the run flag. -/
def resume (s : ServoState) : ServoState := { s with flagSet := true }

/-- ServoCtrl.posUpdate: goalUpdate set to 1, lastPos copied from nowPos
channel by channel, goalUpdate back to 0. -/
def posUpdate (s : ServoState) : ServoState :=
  { s with goalUpdate := 0, lastPos := s.nowPos }

/-- ServoCtrl.speedUpdate: scSpeed[IDinput[i]] = speedInput[i] for each i. -/
def speedUpdate (s : ServoState) (IDinput : List ℕ) (speedInput : List ℚ) : ServoState :=
  { s with scSpeed := (IDinput.zip speedInput).foldl (fun (sp : List ℚ) (p : ℕ × ℚ) => sp.set p.1 p.2) s.scSpeed }

/-- ServoCtrl.stopWiggle: pause, then posUpdate (the optional channel release
only writes hardware). -/
def stopWiggle (s : ServoState) : ServoState := posUpdate (pause s)

/-- ServoCtrl.singleServo. -/
def singleServo (s : ServoState) (ID : ℕ) (direcInput : ℤ) (speedSet : ℚ) : ServoState :=
  resume (posUpdate { s with
    wiggleID := ID
    wiggleDirection := direcInput
    scSpeed := s.scSpeed.set ID speedSet
    scMode := ScMode.wiggle })

/-- Goal computation shared by autoSpeed and certSpeed:
initPos[id] + pwmGenOut(angle) * sc_direction[id], clamped to [minPos, maxPos]. -/
def newGoalFor (s : ServoState) (id : ℕ) (angle : ℚ) : ℤ :=
  let g := s.initPos.getD id 0 + pwmGenOut s angle * s.sc_direction.getD id 0
  if g > s.maxPos.getD id 0 then s.maxPos.getD id 0
  else if g < s.minPos.getD id 0 then s.minPos.getD id 0
  else g

/-- ServoCtrl.autoSpeed. -/
def autoSpeed (s : ServoState) (ID : List ℕ) (angleInput : List ℚ) : ServoState :=
  let s1 := { s with scMode := ScMode.auto, goalUpdate := 1 }
  let s2 := { s1 with
    goalPos := (ID.zip angleInput).foldl (fun (g : List ℤ) (p : ℕ × ℚ) => g.set p.1 (newGoalFor s1 p.1 p.2)) s1.goalPos }
  resume { s2 with goalUpdate := 0 }

/-- ServoCtrl.certSpeed. -/
def certSpeed (s : ServoState) (ID : List ℕ) (angleInput : List ℚ) (speedSet : List ℚ) :
    ServoState :=
  let s1 := { s with scMode := ScMode.certain, goalUpdate := 1 }
  let s2 := { s1 with
    goalPos := (ID.zip angleInput).foldl (fun (g : List ℤ) (p : ℕ × ℚ) => g.set p.1 (newGoalFor s1 p.1 p.2)) s1.goalPos }
  let s3 := speedUpdate s2 ID speedSet
  resume { s3 with goalUpdate := 0 }

/-- The per-tick increment of the wiggle accumulator:
wiggleDirection * sc_direction[wiggleID] * pwmGenOut(scSpeed[wiggleID]) / (1 / scDelay). -/
def wiggleStep (s : ServoState) : ℚ :=
  (s.wiggleDirection : ℚ) * (s.sc_direction.getD s.wiggleID 0 : ℚ)
    * (pwmGenOut s (s.scSpeed.getD s.wiggleID 0) : ℚ) / (1 / s.scDelay)

/-- ServoCtrl.moveWiggle, one tick: advance the accumulator, round it into
nowPos/lastPos before clamping, clamp the accumulator to [minPos, maxPos],
then either keep running (hardware write) or stopWiggle when the clamped
accumulator sits at a limit. -/
def moveWiggle (s : ServoState) : ServoState :=
  let wid := s.wiggleID
  let b := s.bufferPos.getD wid 0 + wiggleStep s
  let newNow := pyRound b
  let bC :=
    if b > (s.maxPos.getD wid 0 : ℚ) then (s.maxPos.getD wid 0 : ℚ)
    else if b < (s.minPos.getD wid 0 : ℚ) then (s.minPos.getD wid 0 : ℚ)
    else b
  let s1 := { s with
    bufferPos := s.bufferPos.set wid bC
    nowPos := s.nowPos.set wid newNow
    lastPos := s.lastPos.set wid newNow }
  if bC < (s.maxPos.getD wid 0 : ℚ) ∧ (s.minPos.getD wid 0 : ℚ) < bC then s1
  else stopWiggle s1

/-- The run loop in wiggle regime: each iteration waits on the run flag and
executes one moveWiggle tick; once the flag is cleared no tick runs. -/
def wiggleTicks : ℕ → ServoState → ServoState
  | 0, s => s
  | n + 1, s => if s.flagSet then wiggleTicks n (moveWiggle s) else s

/-- The per-tick increment of the certain-regime accumulator for channel i:
pwmGenOut(scSpeed[i]) / (1 / scDelay). -/
def certStep (s : ServoState) (i : ℕ) : ℚ :=
  (pwmGenOut s (s.scSpeed.getD i 0) : ℚ) / (1 / s.scDelay)

/-- Entry to ServoCtrl.moveCert: snapshot the goal into ingGoal and reset the
accumulator to lastPos for every channel. -/
def certEntry (s : ServoState) : ServoState :=
  { s with ingGoal := s.goalPos, bufferPos := s.lastPos.map (fun v => (v : ℚ)) }

/-- One channel of the moveCert while-body: move the accumulator toward the
goal by certStep, round into nowPos, clamped so it never passes the goal.
Channels already at their goal are untouched. -/
def certChannelStep (s : ServoState) (i : ℕ) : ServoState :=
  if s.lastPos.getD i 0 < s.goalPos.getD i 0 then
    let b := s.bufferPos.getD i 0 + certStep s i
    let n0 := pyRound b
    let n1 := if n0 > s.goalPos.getD i 0 then s.goalPos.getD i 0 else n0
    { s with bufferPos := s.bufferPos.set i b, nowPos := s.nowPos.set i n1 }
  else if s.lastPos.getD i 0 > s.goalPos.getD i 0 then
    let b := s.bufferPos.getD i 0 - certStep s i
    let n0 := pyRound b
    let n1 := if n0 < s.goalPos.getD i 0 then s.goalPos.getD i 0 else n0
    { s with bufferPos := s.bufferPos.set i b, nowPos := s.nowPos.set i n1 }
  else s

/-- The inner channel loop of moveCert: after each channel the code compares
the entry snapshot ingGoal with the live goal and aborts (posUpdate, return 1)
when they differ; `Except.error` is the aborted state. -/
def certChannels : List ℕ → ServoState → Except ServoState ServoState
  | [], s => Except.ok s
  | i :: rest, s =>
    let s1 := certChannelStep s i
    if s1.ingGoal ≠ s1.goalPos then Except.error (posUpdate s1)
    else certChannels rest s1

/-- One iteration of the moveCert while loop: while nowPos differs from
goalPos, run all channels then posUpdate; once they agree, pause (the loop
returns 0).  States whose run is finished are fixed points up to pause. -/
def certTick (s : ServoState) : ServoState :=
  if s.nowPos ≠ s.goalPos then
    match certChannels (List.range servo_num) s with
    | Except.error s1 => s1
    | Except.ok s1 => posUpdate s1
  else pause s

/-- ServoCtrl.moveAuto interpolation for step i (0-based):
int(round(lastPos + (goalPos - lastPos) / scSteps * (i + 1), 0)). -/
def autoInterp (last goal : ℤ) (steps : ℕ) (i : ℕ) : ℤ :=
  pyRound ((last : ℚ) + ((goal : ℚ) - (last : ℚ)) / (steps : ℚ) * ((i : ℚ) + 1))

/-- The live goal visible at inner iteration k: `change = some (t, g)` means a
concurrent command rewrites the goal vector to g from iteration t onward. -/
def goalAt (g0 : List ℤ) (change : Option (ℕ × List ℤ)) (k : ℕ) : List ℤ :=
  match change with
  | none => g0
  | some (t, g) => if t ≤ k then g else g0

/-- The doubly nested loop of ServoCtrl.moveAuto, flattened over inner
iterations k = i * servo_num + dc with `rem` iterations remaining.  Each
iteration writes the interpolated position for channel dc, then aborts with
return value 1 (committing nowPos into lastPos) when the live goal no longer
matches the ingGoal snapshot; a completed run does posUpdate, pause and
returns 0.  The result is (return value, iterations executed, final state). -/
def autoLoop (steps : ℕ) (g0 : List ℤ) (change : Option (ℕ × List ℤ)) :
    ℕ → ℕ → ServoState → ℕ × ℕ × ServoState
  | 0, k, s => (0, k, pause (posUpdate s))
  | rem + 1, k, s =>
    let g := goalAt g0 change k
    let i := k / servo_num
    let dc := k % servo_num
    let s1 := { s with
      goalPos := g
      nowPos := s.nowPos.set dc (autoInterp (s.lastPos.getD dc 0) (g.getD dc 0) steps i) }
    if s1.ingGoal ≠ s1.goalPos then (1, k + 1, posUpdate s1)
    else autoLoop steps g0 change rem (k + 1) s1

/-- ServoCtrl.moveAuto: snapshot ingGoal := goalPos, then run
scSteps * servo_num inner iterations. -/
def moveAuto (s : ServoState) (change : Option (ℕ × List ℤ)) : ℕ × ℕ × ServoState :=
  autoLoop s.scSteps s.goalPos change (s.scSteps * servo_num) 0 { s with ingGoal := s.goalPos }

/-- ServoCtrl.initConfig: accepts initInput only when
minPos[ID] < initInput < maxPos[ID] (strict); on accept only initPos changes
(moveTo additionally writes the servo); on reject it prints an error and
leaves the state untouched. -/
def initConfig (s : ServoState) (ID : ℕ) (initInput : ℤ) (moveTo : Bool) : ServoState :=
  if s.minPos.getD ID 0 < initInput ∧ initInput < s.maxPos.getD ID 0 then
    { s with initPos := s.initPos.set ID initInput }
  else s

/-! ## Hardware driver binding and write traces

`DrvState` models the pwm_servo / _use_fallback / _health_checked fields.
Hardware writes are traced as (channel, commanded value) pairs: the health
check writes the 90 degree midpoint to channel 0 and then relaxes it; relax
writes 0; set_angle writes the clamped angle.  `_ensure_driver` raises
RuntimeError (modelled as `Except.error`) when neither the Adafruit driver
nor the smbus fallback can be acquired. -/

structure DrvState where
  ready : Bool
  useFallback : Bool
  healthChecked : Bool
  deriving DecidableEq, Repr

/-- ServoCtrl._run_health_check: once per instance, write the 90 degree
midpoint to channel 0 and relax channel 0. -/
def runHealthCheck (d : DrvState) : DrvState × List (ℕ × ℚ) :=
  if d.healthChecked then (d, [])
  else ({ d with healthChecked := true }, [(0, 90), (0, 0)])

/-- ServoCtrl._ensure_driver: lazy binding; prefer the Adafruit driver, fall
back to the smbus driver, raise RuntimeError when neither is available. -/
def ensureDriver (adafruitOk smbusOk : Bool) (d : DrvState) :
    Except String (DrvState × List (ℕ × ℚ)) :=
  if d.ready then Except.ok (d, [])
  else if adafruitOk then
    Except.ok (runHealthCheck { ready := true, useFallback := false, healthChecked := d.healthChecked })
  else if smbusOk then
    Except.ok (runHealthCheck { ready := true, useFallback := true, healthChecked := d.healthChecked })
  else Except.error "Unable to initialize PCA9685 using smbus fallback"

/-- Clamp an angle to [ctrlRangeMin, ctrlRangeMax] as in ServoCtrl.set_angle. -/
def ctrlClamp (s : ServoState) (angle : ℚ) : ℚ :=
  max s.ctrlRangeMin (min s.ctrlRangeMax angle)

/-- ServoCtrl.set_angle: ensure the driver, return silently for the dedicated
LED channel, otherwise write the clamped angle to the channel.  No channel
state is modified. -/
def set_angle (adafruitOk smbusOk : Bool) (d : DrvState) (s : ServoState) (ID : ℕ) (angle : ℚ) :
    Except String (DrvState × List (ℕ × ℚ)) :=
  match ensureDriver adafruitOk smbusOk d with
  | Except.error e => Except.error e
  | Except.ok (d1, w) =>
    if ID = PWM_LED_CHANNEL then Except.ok (d1, w)
    else Except.ok (d1, w ++ [(ID, ctrlClamp s angle)])

/-- The channels relaxed by ServoCtrl.relax: every non-LED channel, or one
given non-LED channel. -/
def relaxWrites (ch : Option ℕ) : List (ℕ × ℚ) :=
  match ch with
  | none => ((List.range servo_num).filter (fun i => i ≠ PWM_LED_CHANNEL)).map (fun i => (i, 0))
  | some c => if c = PWM_LED_CHANNEL then [] else [(c, 0)]

/-- ServoCtrl.setPWM: returns immediately for the dedicated LED channel;
otherwise snap lastPos/nowPos/bufferPos/goalPos to the input, write the angle,
pause (relaxing all channels) and release the channel. -/
def setPWM (adafruitOk smbusOk : Bool) (d : DrvState) (s : ServoState) (ID : ℕ) (PWM_input : ℤ) :
    Except String (DrvState × ServoState × List (ℕ × ℚ)) :=
  if ID = PWM_LED_CHANNEL then Except.ok (d, s, [])
  else
    let s1 := { s with
      lastPos := s.lastPos.set ID PWM_input
      nowPos := s.nowPos.set ID PWM_input
      bufferPos := s.bufferPos.set ID (PWM_input : ℚ)
      goalPos := s.goalPos.set ID PWM_input }
    match set_angle adafruitOk smbusOk d s1 ID (PWM_input : ℚ) with
    | Except.error e => Except.error e
    | Except.ok (d1, w) =>
      Except.ok (d1, pause s1,
        w ++ (if SERVO_RELAX then relaxWrites none else []) ++
          (if SERVO_RELAX then relaxWrites (some ID) else []))

/-! ## Drivetrain ramp controller (src/modules/movement.py) -/

/-- Python input values for Motor: a number or something float() rejects. -/
inductive PyInput
  | num (q : ℚ)
  | nonNumeric
  deriving DecidableEq, Repr

/-- movement._clamp_speed_value: non-numeric input becomes 0; numbers are
clamped to [0, 100]. -/
def clamp_speed_value : PyInput → ℚ
  | PyInput.num q => max 0 (min 100 q)
  | PyInput.nonNumeric => 0

/-- movement._signed_speed: negate the clamped speed only for direction -1. -/
def signed_speed (direction : ℤ) (motor_speed : PyInput) : ℚ :=
  if direction = -1 then -(clamp_speed_value motor_speed) else clamp_speed_value motor_speed

/-- The clamp to [-100, 100] used for motor targets and hardware writes. -/
def clampMotorRange (x : ℚ) : ℚ := max (-100) (min 100 x)

/-- movement._set_motor_target: 1-based channel, out-of-range ignored,
target clamped to [-100, 100]. -/
def set_motor_target (targets : List ℚ) (channel : ℤ) (signed : ℚ) : List ℚ :=
  if channel - 1 < 0 ∨ (targets.length : ℤ) ≤ channel - 1 then targets
  else targets.set (channel - 1).toNat (clampMotorRange signed)

/-- One motor of one _drive_worker tick before the write clamp: with a
positive accel limit, move current toward target by at most accel * dt;
a non-positive accel limit jumps straight to the target. -/
def rampNext (accel dt current target : ℚ) : ℚ :=
  if accel ≤ 0 then target
  else if target > current + accel * dt then current + accel * dt
  else if target < current - accel * dt then current - accel * dt
  else target

/-- One motor of one _drive_worker tick: the ramped value is clamped to
[-100, 100], written to hardware and stored back into _motor_currents. -/
def driveTick (accel dt current target : ℚ) : ℚ :=
  clampMotorRange (rampNext accel dt current target)

/-- A sequence of _drive_worker ticks for one motor with measured tick
durations dts. -/
def rampRun (accel target current : ℚ) (dts : List ℚ) : ℚ :=
  dts.foldl (fun c dt => driveTick accel dt c target) current

/-- The movement-module state relevant to motorStop: whether the driver was
ever acquired (pwm_motor is not None), plus targets and currents. -/
structure MotorState where
  pwmAvailable : Bool
  targets : List ℚ
  currents : List ℚ
  deriving DecidableEq, Repr

/-- movement.motorStop: returns untouched when the driver was never acquired;
immediate (or ramp-disabled) stop zeroes targets and currents and writes
hardware now; otherwise only targets are zeroed and the ramp converges. -/
def motorStop (rampEnabled immediate : Bool) (m : MotorState) : MotorState :=
  if m.pwmAvailable = false then m
  else if immediate ∨ rampEnabled = false then
    { m with
      targets := m.targets.map (fun _ => 0)
      currents := m.currents.map (fun _ => 0) }
  else { m with targets := m.targets.map (fun _ => 0) }


/-! ## The concrete speed-paced scenario of the spec

Channel 0 with defaults init=90, min=0, max=180 and direction -1, then
drive_at_speed([0], [+30], [2]). -/

/-- initState with channel 0 direction set to -1. -/
def certScenarioBase : ServoState :=
  { initState with sc_direction := [-1, 1, 1, 1, 1, 1, 1, 1] }

/-- The state at entry of moveCert after certSpeed([0], [30], [2]). -/
def certScenarioStart : ServoState :=
  certEntry (certSpeed certScenarioBase [0] [30] [2])

/-- The scenario state after some ticks: channel 0 accumulator b, channel 0
position v, all other channels parked at 90. -/
def certStateAt (b : ℚ) (v : ℤ) : ServoState where
  sc_direction := [-1, 1, 1, 1, 1, 1, 1, 1]
  initPos := [90, 90, 90, 90, 90, 90, 90, 90]
  goalPos := [60, 90, 90, 90, 90, 90, 90, 90]
  nowPos := [v, 90, 90, 90, 90, 90, 90, 90]
  bufferPos := [b, 90, 90, 90, 90, 90, 90, 90]
  lastPos := [v, 90, 90, 90, 90, 90, 90, 90]
  ingGoal := [60, 90, 90, 90, 90, 90, 90, 90]
  maxPos := [180, 180, 180, 180, 180, 180, 180, 180]
  minPos := [0, 0, 0, 0, 0, 0, 0, 0]
  scSpeed := [2, 0, 0, 0, 0, 0, 0, 0]
  ctrlRangeMax := 180
  ctrlRangeMin := 0
  angleRange := 180
  scMode := ScMode.certain
  scTime := 2
  scSteps := 30
  scDelay := 9/100
  scMoveTime := 9/100
  goalUpdate := 0
  wiggleID := 0
  wiggleDirection := 1
  flagSet := true

/-- Channel 0 position after n scenario ticks: starts at 90, then the rounded
accumulator clamped from below at the goal 60. -/
def vFun (n : ℕ) : ℤ :=
  if n = 0 then 90
  else if pyRound (90 - n * (9/50)) < 60 then 60 else pyRound (90 - n * (9/50))

/-! ## Helper lemmas -/

theorem pyRound_intCast (n : ℤ) : pyRound (n : ℚ) = n := by
  simp [pyRound]

theorem pyRound_le (q : ℚ) : (pyRound q : ℚ) ≤ q + 1/2 := by
  unfold pyRound
  have hf := Int.floor_le q
  have hf' := Int.lt_floor_add_one q
  by_cases h1 : q - (⌊q⌋ : ℚ) < 1/2
  · simp only [h1, if_true]
    linarith
  · simp only [h1, if_false]
    by_cases h2 : (1:ℚ)/2 < q - (⌊q⌋ : ℚ)
    · simp only [h2, if_true]
      push_cast
      linarith
    · simp only [h2, if_false]
      by_cases h3 : ⌊q⌋ % 2 = 0
      · simp only [h3, if_true]
        linarith
      · simp only [h3, if_false]
        push_cast
        linarith

theorem le_pyRound (q : ℚ) : q - 1/2 ≤ (pyRound q : ℚ) := by
  unfold pyRound
  have hf := Int.floor_le q
  have hf' := Int.lt_floor_add_one q
  by_cases h1 : q - (⌊q⌋ : ℚ) < 1/2
  · simp only [h1, if_true]
    linarith
  · simp only [h1, if_false]
    by_cases h2 : (1:ℚ)/2 < q - (⌊q⌋ : ℚ)
    · simp only [h2, if_true]
      push_cast
      linarith
    · simp only [h2, if_false]
      by_cases h3 : ⌊q⌋ % 2 = 0
      · simp only [h3, if_true]
        linarith
      · simp only [h3, if_false]
        push_cast
        linarith

theorem pyRound_floor_le (q : ℚ) : ⌊q⌋ ≤ pyRound q := by
  unfold pyRound
  split_ifs <;> omega

theorem pyRound_le_floor_add_one (q : ℚ) : pyRound q ≤ ⌊q⌋ + 1 := by
  unfold pyRound
  split_ifs <;> omega

theorem pyRound_mono {a b : ℚ} (h : a ≤ b) : pyRound a ≤ pyRound b := by
  have hfab : ⌊a⌋ ≤ ⌊b⌋ := Int.floor_le_floor h
  rcases lt_or_eq_of_le hfab with hlt | heq
  · have h1 := pyRound_le_floor_add_one a
    have h2 := pyRound_floor_le b
    omega
  · have hra : a - (⌊a⌋ : ℚ) ≤ b - (⌊b⌋ : ℚ) := by rw [← heq]; linarith
    unfold pyRound
    rw [← heq]
    rw [← heq] at hra
    split_ifs <;> first | omega | linarith

theorem pyRound_le_of_le_int {q : ℚ} {n : ℤ} (h : q ≤ (n : ℚ)) : pyRound q ≤ n := by
  have := pyRound_mono h
  rwa [pyRound_intCast] at this

theorem int_le_pyRound_of_le {q : ℚ} {n : ℤ} (h : (n : ℚ) ≤ q) : n ≤ pyRound q := by
  have := pyRound_mono h
  rwa [pyRound_intCast] at this

theorem getD_set_self {α : Type} [Inhabited α] (l : List α) (i : ℕ) (a d : α)
    (h : i < l.length) : (l.set i a).getD i d = a := by
  rw [List.getD_eq_getElem _ _ (by simpa using h)]
  exact List.getElem_set_self _

theorem getD_set_ne {α : Type} [Inhabited α] (l : List α) (i j : ℕ) (a d : α)
    (h : i ≠ j) : (l.set i a).getD j d = l.getD j d := by
  rw [List.getD_eq_getD_get?, List.getD_eq_getD_get?, List.get?_set_ne _ _ h]


/-! ## Claim C8: idempotent stop -/

/-- C8: stop (stopWiggle: pause, then commit nowPos into lastPos) is
idempotent on the controller state, and the current position immediately
after a stop equals the current position immediately before it. -/
theorem stop_idempotent (s : ServoState) :
    stopWiggle (stopWiggle s) = stopWiggle s ∧ (stopWiggle s).nowPos = s.nowPos :=
  ⟨rfl, rfl⟩

/-! ## Claim C9: signed motor speed -/

/-- C9 counterexample: at direction -1 with motor speed 0 the signed speed is
0, not negative, so the signed speed is not negative exactly when
direction = -1. -/
theorem signed_speed_negativity_cex :
    signed_speed (-1) (PyInput.num 0) = 0 ∧ ¬ signed_speed (-1) (PyInput.num 0) < 0 := by
  norm_num [signed_speed, clamp_speed_value]

/-- C9 (amended): the signed speed always lies in [-100, 100]; it is negative
exactly when direction = -1 and the clamped speed is positive; any direction
other than -1 (including 0) returns the non-negative clamped speed. -/
theorem signed_speed_amended (d : ℤ) (ms : PyInput) :
    -100 ≤ signed_speed d ms ∧ signed_speed d ms ≤ 100 ∧
    (signed_speed d ms < 0 ↔ d = -1 ∧ 0 < clamp_speed_value ms) ∧
    (d ≠ -1 → signed_speed d ms = clamp_speed_value ms) ∧
    signed_speed 0 ms = clamp_speed_value ms ∧ 0 ≤ clamp_speed_value ms := by
  have hc1 : 0 ≤ clamp_speed_value ms := by
    cases ms with
    | num q => exact le_max_left 0 _
    | nonNumeric => norm_num [clamp_speed_value]
  have hc2 : clamp_speed_value ms ≤ 100 := by
    cases ms with
    | num q => exact max_le (by norm_num) (min_le_left _ _)
    | nonNumeric => norm_num [clamp_speed_value]
  have h0 : signed_speed 0 ms = clamp_speed_value ms := by norm_num [signed_speed]
  by_cases h : d = -1
  · subst h
    have hs : signed_speed (-1) ms = -(clamp_speed_value ms) := by simp [signed_speed]
    rw [hs]
    refine ⟨by linarith, by linarith, ?_, ?_, h0, hc1⟩
    · constructor
      · intro hlt
        exact ⟨rfl, by linarith⟩
      · rintro ⟨-, hpos⟩
        linarith
    · intro hne
      exact absurd rfl hne
  · have hs : signed_speed d ms = clamp_speed_value ms := by simp [signed_speed, h]
    rw [hs]
    refine ⟨by linarith, hc2, ?_, fun _ => rfl, h0, hc1⟩
    constructor
    · intro hlt
      exact absurd hlt (not_lt.mpr hc1)
    · rintro ⟨hd, -⟩
      exact absurd hd h

/-! ## Claim C7: calibration update -/

/-- C7 counterexample: with defaults min=0, max=180, the claimed acceptance
condition min ≤ 0 ≤ max holds for initInput = 0, yet initConfig rejects it
(strict comparison) and initPos stays 90. -/
theorem init_config_boundary_cex :
    initState.minPos.getD 0 0 ≤ 0 ∧ (0:ℤ) ≤ initState.maxPos.getD 0 0 ∧
    initConfig initState 0 0 true = initState ∧
    (initConfig initState 0 0 true).initPos.getD 0 0 = 90 := by
  refine ⟨by norm_num [initState], by norm_num [initState], ?_, ?_⟩ <;>
    norm_num [initConfig, initState]

/-- C7 (amended): initConfig accepts exactly when
minPos[ID] < initInput < maxPos[ID] (strict); on accept it updates only
initPos; on reject the whole previous state is retained; goalPos, nowPos and
the limits are never re-clamped or modified. -/
theorem init_config_amended (s : ServoState) (ID : ℕ) (initInput : ℤ) (moveTo : Bool) :
    (s.minPos.getD ID 0 < initInput ∧ initInput < s.maxPos.getD ID 0 →
      initConfig s ID initInput moveTo = { s with initPos := s.initPos.set ID initInput }) ∧
    (¬ (s.minPos.getD ID 0 < initInput ∧ initInput < s.maxPos.getD ID 0) →
      initConfig s ID initInput moveTo = s) ∧
    (initConfig s ID initInput moveTo).goalPos = s.goalPos ∧
    (initConfig s ID initInput moveTo).nowPos = s.nowPos ∧
    (initConfig s ID initInput moveTo).minPos = s.minPos ∧
    (initConfig s ID initInput moveTo).maxPos = s.maxPos := by
  unfold initConfig
  split_ifs with h
  · exact ⟨fun _ => rfl, fun hn => absurd h hn, rfl, rfl, rfl, rfl⟩
  · exact ⟨fun hp => absurd hp h, fun _ => rfl, rfl, rfl, rfl, rfl⟩

/-- C7 witness: initConfig initState accepts 100 on channel 0 and rejects 0. -/
theorem init_config_amended_witness :
    initConfig initState 0 100 true = { initState with initPos := initState.initPos.set 0 100 } ∧
    initConfig initState 0 0 true = initState :=
  ⟨(init_config_amended initState 0 100 true).1 (by norm_num [initState]),
   (init_config_amended initState 0 0 true).2.1 (by norm_num [initState])⟩

/-! ## Claim C4: behaviour when the hardware driver is unavailable -/

/-- C4 counterexample: with neither driver available, driver acquisition
raises (RuntimeError) instead of accepting commands, and motorStop on a
never-acquired driver returns without zeroing targets/currents, unlike the
hardware-present case. -/
theorem hardware_absent_cex :
    ensureDriver false false ⟨false, false, false⟩ =
      Except.error "Unable to initialize PCA9685 using smbus fallback" ∧
    motorStop true true ⟨false, [50, 0, 0, 0], [50, 0, 0, 0]⟩ =
      ⟨false, [50, 0, 0, 0], [50, 0, 0, 0]⟩ ∧
    (motorStop true true ⟨true, [50, 0, 0, 0], [50, 0, 0, 0]⟩).targets = [0, 0, 0, 0] := by
  refine ⟨by simp [ensureDriver], by simp [motorStop], by simp [motorStop]⟩

/-- C4 (amended): when neither the Adafruit driver nor the smbus fallback is
available, driver acquisition fails with a RuntimeError (commands are not
silently accepted); motorStop is a complete no-op (state included) while the
motor driver was never acquired; with the driver acquired, an immediate stop
zeroes both targets and currents. -/
theorem hardware_absent_amended :
    (∀ d : DrvState, d.ready = false →
      ensureDriver false false d =
        Except.error "Unable to initialize PCA9685 using smbus fallback") ∧
    (∀ (m : MotorState) (re imm : Bool), m.pwmAvailable = false → motorStop re imm m = m) ∧
    (∀ (m : MotorState) (re : Bool), m.pwmAvailable = true →
      (motorStop re true m).targets = m.targets.map (fun _ => 0) ∧
      (motorStop re true m).currents = m.currents.map (fun _ => 0)) := by
  refine ⟨?_, ?_, ?_⟩
  · intro d hd
    simp [ensureDriver, hd]
  · intro m re imm hm
    simp [motorStop, hm]
  · intro m re hm
    simp [motorStop, hm]

/-- C4 witness: the amended behaviour at concrete states. -/
theorem hardware_absent_amended_witness :
    ensureDriver false false ⟨false, true, false⟩ =
      Except.error "Unable to initialize PCA9685 using smbus fallback" ∧
    motorStop true false ⟨false, [7, 0, 0, 0], [7, 0, 0, 0]⟩ =
      ⟨false, [7, 0, 0, 0], [7, 0, 0, 0]⟩ ∧
    (motorStop true true ⟨true, [7, 0, 0, 0], [0, 0, 0, 0]⟩).targets = [7, 0, 0, 0].map (fun _ => 0) :=
  ⟨hardware_absent_amended.1 ⟨false, true, false⟩ rfl,
   hardware_absent_amended.2.1 ⟨false, [7, 0, 0, 0], [7, 0, 0, 0]⟩ true false rfl,
   (hardware_absent_amended.2.2 ⟨true, [7, 0, 0, 0], [0, 0, 0, 0]⟩ true rfl).1⟩

/-! ## Claim C3: drivetrain ramp -/

theorem driveTick_in_range_of (accel dt c t : ℚ) (hdt : 0 < dt) (hc1 : -100 ≤ c) (hc2 : c ≤ 100)
    (ht1 : -100 ≤ t) (ht2 : t ≤ 100) :
    driveTick accel dt c t = rampNext accel dt c t ∧
    -100 ≤ driveTick accel dt c t ∧ driveTick accel dt c t ≤ 100 := by
  have key : -100 ≤ rampNext accel dt c t ∧ rampNext accel dt c t ≤ 100 := by
    unfold rampNext
    split_ifs with h0 h1 h2
    · exact ⟨ht1, ht2⟩
    · push_neg at h0
      constructor <;> nlinarith
    · push_neg at h0
      constructor <;> nlinarith
    · exact ⟨ht1, ht2⟩
  have heq : driveTick accel dt c t = rampNext accel dt c t := by
    unfold driveTick clampMotorRange
    rw [min_eq_right key.2, max_eq_right key.1]
  exact ⟨heq, heq ▸ key.1, heq ▸ key.2⟩

theorem rampRun_formula (dts : List ℚ) (T : ℚ) (hd : ∀ d ∈ dts, 0 < d) (hT : 0 ≤ T) :
    rampRun 200 80 (min 80 (200 * T)) dts = min 80 (200 * (T + dts.sum)) := by
  induction dts generalizing T with
  | nil => simp [rampRun]
  | cons d rest ih =>
    have hdpos : 0 < d := hd d (List.mem_cons_self d rest)
    have hrest : ∀ x ∈ rest, 0 < x := fun x hx => hd x (List.mem_cons_of_mem d hx)
    have hstep : driveTick 200 d (min 80 (200 * T)) 80 = min 80 (200 * (T + d)) := by
      unfold driveTick rampNext clampMotorRange
      rcases le_or_lt 80 (200 * T) with h | h
      · rw [min_eq_left h, if_neg (by norm_num : ¬ (200:ℚ) ≤ 0),
          if_neg (by nlinarith : ¬ (80:ℚ) > 80 + 200 * d),
          if_neg (by nlinarith : ¬ (80:ℚ) < 80 - 200 * d),
          min_eq_right (by norm_num : (80:ℚ) ≤ 100),
          max_eq_right (by norm_num : (-100:ℚ) ≤ 80),
          min_eq_left (by nlinarith : (80:ℚ) ≤ 200 * (T + d))]
      · rw [min_eq_right h.le, if_neg (by norm_num : ¬ (200:ℚ) ≤ 0)]
        rcases lt_or_le (200 * T + 200 * d) 80 with h2 | h2
        · rw [if_pos (by nlinarith : (80:ℚ) > 200 * T + 200 * d)]
          have hval : (200 * T + 200 * d : ℚ) = 200 * (T + d) := by ring
          rw [hval, min_eq_right (by nlinarith : (200:ℚ) * (T + d) ≤ 100),
            max_eq_right (by nlinarith : (-100:ℚ) ≤ 200 * (T + d)),
            min_eq_right (by nlinarith : (200:ℚ) * (T + d) ≤ 80)]
        · rw [if_neg (by nlinarith : ¬ (80:ℚ) > 200 * T + 200 * d),
            if_neg (by nlinarith : ¬ (80:ℚ) < 200 * T - 200 * d),
            min_eq_right (by norm_num : (80:ℚ) ≤ 100),
            max_eq_right (by norm_num : (-100:ℚ) ≤ 80),
            min_eq_left (by nlinarith : (80:ℚ) ≤ 200 * (T + d))]
    have hrec : rampRun 200 80 (min 80 (200 * T)) (d :: rest) =
        rampRun 200 80 (min 80 (200 * (T + d))) rest := by
      simp only [rampRun, List.foldl_cons, hstep]
    rw [hrec, ih (T + d) hrest (by linarith)]
    have : T + d + rest.sum = T + (d :: rest).sum := by
      simp [List.sum_cons]
      ring
    rw [this]

/-- C3: each _drive_worker tick moves a motor current toward its target by at
most accel * dt and writes a value clamped to [-100, 100]; set_target(1, 80)
clamps and stores 80; from current 0 with accel 200 the current after ticks of
measured durations dts equals min(80, 200 * elapsed), and never leaves
[-100, 100]. -/
theorem ramp_monotone_convergence :
    (∀ accel dt c t : ℚ, 0 < accel → 0 < dt → -100 ≤ c → c ≤ 100 → -100 ≤ t → t ≤ 100 →
      |driveTick accel dt c t - c| ≤ accel * dt ∧
      -100 ≤ driveTick accel dt c t ∧ driveTick accel dt c t ≤ 100) ∧
    set_motor_target [0, 0, 0, 0] 1 80 = [80, 0, 0, 0] ∧
    (∀ dts : List ℚ, (∀ d ∈ dts, 0 < d) →
      rampRun 200 80 0 dts = min 80 (200 * dts.sum) ∧
      -100 ≤ rampRun 200 80 0 dts ∧ rampRun 200 80 0 dts ≤ 100) := by
  refine ⟨?_, ?_, ?_⟩
  · intro accel dt c t ha hdt hc1 hc2 ht1 ht2
    obtain ⟨heq, h1, h2⟩ := driveTick_in_range_of accel dt c t hdt hc1 hc2 ht1 ht2
    refine ⟨?_, h1, h2⟩
    rw [heq]
    unfold rampNext
    split_ifs with h0 hb hc'
    · exact absurd h0 (not_le.mpr ha)
    · have hv : c + accel * dt - c = accel * dt := by ring
      rw [hv, abs_of_nonneg (by positivity)]
    · have hv : c - accel * dt - c = -(accel * dt) := by ring
      rw [hv, abs_neg, abs_of_nonneg (by positivity)]
    · push_neg at hb hc'
      rw [abs_le]
      constructor <;> linarith
  · norm_num [set_motor_target, clampMotorRange]
  · intro dts hd
    have hsum : 0 ≤ dts.sum := List.sum_nonneg (fun x hx => (hd x hx).le)
    have h0 : (0 : ℚ) = min 80 (200 * 0) := by norm_num
    have := rampRun_formula dts 0 hd le_rfl
    rw [← h0] at this
    rw [this]
    refine ⟨by norm_num, ?_, ?_⟩
    · exact le_min (by norm_num) (by nlinarith)
    · calc min 80 (200 * (0 + dts.sum)) ≤ 80 := min_le_left _ _
        _ ≤ 100 := by norm_num

/-- C3 witness: two ticks of 1/10 s each from 0 toward 80. -/
theorem ramp_monotone_convergence_witness :
    |driveTick 200 (1/10) 0 80 - 0| ≤ 200 * (1/10) ∧
    rampRun 200 80 0 [1/10, 1/10] = min 80 (200 * ([1/10, 1/10] : List ℚ).sum) :=
  ⟨(ramp_monotone_convergence.1 200 (1/10) 0 80 (by norm_num) (by norm_num) (by norm_num)
      (by norm_num) (by norm_num) (by norm_num)).1,
   (ramp_monotone_convergence.2.2 [1/10, 1/10] (by
      intro d hd
      rw [List.mem_cons, List.mem_singleton] at hd
      rcases hd with h | h <;> norm_num [h])).1⟩

/-! ## Claim C10: the dedicated LED channel -/

theorem ensureDriver_writes_channel0 (aOk sOk : Bool) (d d1 : DrvState) (w : List (ℕ × ℚ))
    (h : ensureDriver aOk sOk d = Except.ok (d1, w)) : ∀ e ∈ w, e.1 = 0 := by
  intro e he
  unfold ensureDriver runHealthCheck at h
  split_ifs at h <;>
    simp only [Except.ok.injEq, Prod.mk.injEq, reduceCtorEq] at h <;>
    obtain ⟨h1, h2⟩ := h <;> subst h2 <;> simp at he <;>
    rcases he with he | he <;> simp [he]

/-- C10: for the dedicated LED channel (PWM_LED_CHANNEL = 5), setPWM returns
with the driver state, every channel array and the write trace untouched, and
set_angle for that channel never writes to it (its lazy driver binding may
health-check channel 0 only). -/
theorem led_channel_frame (aOk sOk : Bool) (d : DrvState) (s : ServoState) (pwm : ℤ) (angle : ℚ) :
    setPWM aOk sOk d s PWM_LED_CHANNEL pwm = Except.ok (d, s, []) ∧
    (∀ d1 w, set_angle aOk sOk d s PWM_LED_CHANNEL angle = Except.ok (d1, w) →
      ∀ e ∈ w, e.1 ≠ PWM_LED_CHANNEL) := by
  constructor
  · simp [setPWM]
  · intro d1 w h e he
    unfold set_angle at h
    cases hE : ensureDriver aOk sOk d with
    | error msg =>
      rw [hE] at h
      exact absurd h (by simp)
    | ok p =>
      obtain ⟨d2, w2⟩ := p
      rw [hE] at h
      dsimp only at h
      rw [if_pos rfl] at h
      have hp := Except.ok.inj h
      simp only [Prod.mk.injEq] at hp
      obtain ⟨hd2, hw2⟩ := hp
      subst hw2
      have h0 := ensureDriver_writes_channel0 aOk sOk d d2 w2 hE e he
      rw [h0]
      norm_num [PWM_LED_CHANNEL]

/-- C10 witness: concrete LED-channel calls. -/
theorem led_channel_frame_witness :
    setPWM true true ⟨false, false, false⟩ initState PWM_LED_CHANNEL 90 =
      Except.ok (⟨false, false, false⟩, initState, []) ∧
    ((0:ℕ), (90:ℚ)).1 ≠ PWM_LED_CHANNEL :=
  ⟨(led_channel_frame true true ⟨false, false, false⟩ initState 90 90).1,
   (led_channel_frame true true ⟨false, false, false⟩ initState 90 90).2
     ⟨true, false, true⟩ [(0, 90), (0, 0)] rfl (0, 90) (by simp)⟩

/-! ## Claim C6: timed interpolation pre-emption -/

theorem autoLoop_no_change (steps : ℕ) (g0 : List ℤ) :
    ∀ (rem k : ℕ) (s : ServoState), s.ingGoal = g0 →
      (autoLoop steps g0 none rem k s).1 = 0 ∧
      (autoLoop steps g0 none rem k s).2.1 = k + rem := by
  intro rem
  induction rem with
  | zero => intro k s _; exact ⟨rfl, rfl⟩
  | succ rem ih =>
    intro k s hing
    simp only [autoLoop, goalAt]
    split_ifs with habort
    · exact (habort (by simp [hing])).elim
    · exact ⟨(ih (k + 1) _ (by simp [hing])).1,
        by rw [(ih (k + 1) _ (by simp [hing])).2]; omega⟩

theorem autoLoop_change (steps t : ℕ) (g0 g : List ℤ) (hg : g ≠ g0) :
    ∀ (d k rem : ℕ) (s : ServoState), t = k + d → rem = steps * servo_num - k →
      t < steps * servo_num → s.ingGoal = g0 →
      (autoLoop steps g0 (some (t, g)) rem k s).1 = 1 ∧
      (autoLoop steps g0 (some (t, g)) rem k s).2.1 = t + 1 ∧
      (autoLoop steps g0 (some (t, g)) rem k s).2.2.lastPos =
        (autoLoop steps g0 (some (t, g)) rem k s).2.2.nowPos := by
  intro d
  induction d with
  | zero =>
    intro k rem s ht hrem htot hing
    have hk : t = k := by omega
    subst hk
    obtain ⟨rem1, rfl⟩ : ∃ r, rem = r + 1 := ⟨rem - 1, by omega⟩
    simp only [autoLoop, goalAt]
    rw [if_pos (le_refl t)]
    split_ifs with habort
    · simp [posUpdate]
    · push_neg at habort
      have h2 : g0 = g := by simpa [hing] using habort
      exact (hg h2.symm).elim
  | succ d ih =>
    intro k rem s ht hrem htot hing
    obtain ⟨rem1, rfl⟩ : ∃ r, rem = r + 1 := ⟨rem - 1, by omega⟩
    simp only [autoLoop, goalAt]
    rw [if_neg (show ¬ t ≤ k by omega)]
    split_ifs with habort
    · exact (habort (by simp [hing])).elim
    · exact ih (k + 1) rem1 _ (by omega) (by omega) htot (by simp [hing])

/-- C6: during a timed interpolation run, a live goal differing from the
regime-entry snapshot from inner tick t on makes the run abort right at tick
t (executing t + 1 of the scSteps * servo_num inner ticks), commit the
in-progress position as the new last position, and return 1; an uninterrupted
run executes all inner ticks and returns 0. -/
theorem auto_preemption (s : ServoState) (t : ℕ) (g : List ℤ) :
    (t < s.scSteps * servo_num → g ≠ s.goalPos →
      (moveAuto s (some (t, g))).1 = 1 ∧
      (moveAuto s (some (t, g))).2.1 = t + 1 ∧
      (moveAuto s (some (t, g))).2.2.lastPos = (moveAuto s (some (t, g))).2.2.nowPos) ∧
    (moveAuto s none).1 = 0 ∧ (moveAuto s none).2.1 = s.scSteps * servo_num := by
  constructor
  · intro htot hg
    exact autoLoop_change s.scSteps t s.goalPos g hg t 0 _ _ (by omega) rfl htot rfl
  · have := autoLoop_no_change s.scSteps s.goalPos (s.scSteps * servo_num) 0
      { s with ingGoal := s.goalPos } rfl
    refine ⟨this.1, ?_⟩
    show (autoLoop s.scSteps s.goalPos none (s.scSteps * servo_num) 0
      { s with ingGoal := s.goalPos }).2.1 = s.scSteps * servo_num
    rw [this.2]
    omega

/-- C6 witness: initState pre-empted at inner tick 3, and uninterrupted. -/
theorem auto_preemption_witness :
    (moveAuto initState (some (3, [100, 90, 90, 90, 90, 90, 90, 90]))).1 = 1 ∧
    (moveAuto initState (some (3, [100, 90, 90, 90, 90, 90, 90, 90]))).2.1 = 4 ∧
    (moveAuto initState none).1 = 0 :=
  ⟨((auto_preemption initState 3 [100, 90, 90, 90, 90, 90, 90, 90]).1
      (by norm_num [initState, servo_num]) (by decide)).1,
   ((auto_preemption initState 3 [100, 90, 90, 90, 90, 90, 90, 90]).1
      (by norm_num [initState, servo_num]) (by decide)).2.1,
   (auto_preemption initState 3 [100, 90, 90, 90, 90, 90, 90, 90]).2.1⟩

/-! ## Claim C1: clamping invariant -/

/-- C1 counterexample: from the default state, singleServo(0, +1, 1006)
followed by one wiggle tick leaves nowPos[0] = 181 above maxPos[0] = 180:
moveWiggle rounds the accumulator into nowPos before clamping it. -/
theorem wiggle_clamping_cex :
    (wiggleTicks 1 (singleServo initState 0 1 1006)).maxPos.getD 0 0 = 180 ∧
    (wiggleTicks 1 (singleServo initState 0 1 1006)).nowPos.getD 0 0 = 181 ∧
    ¬ ((wiggleTicks 1 (singleServo initState 0 1 1006)).nowPos.getD 0 0 ≤
        (wiggleTicks 1 (singleServo initState 0 1 1006)).maxPos.getD 0 0) := by
  have h1 : wiggleTicks 1 (singleServo initState 0 1 1006) =
      moveWiggle (singleServo initState 0 1 1006) := by
    show (if (singleServo initState 0 1 1006).flagSet
      then wiggleTicks 0 (moveWiggle (singleServo initState 0 1 1006))
      else singleServo initState 0 1 1006) = _
    rfl
  rw [h1]
  norm_num [singleServo, initState, moveWiggle, wiggleStep, pwmGenOut, pyRound,
    stopWiggle, posUpdate, pause, resume]

theorem cert_channel_step_in_bounds (s : ServoState) (i : ℕ)
    (hlen : i < s.nowPos.length) (hstep : 0 ≤ certStep s i)
    (hg1 : s.minPos.getD i 0 ≤ s.goalPos.getD i 0) (hg2 : s.goalPos.getD i 0 ≤ s.maxPos.getD i 0)
    (hb1 : (s.minPos.getD i 0 : ℚ) ≤ s.bufferPos.getD i 0)
    (hb2 : s.bufferPos.getD i 0 ≤ (s.maxPos.getD i 0 : ℚ))
    (hn1 : s.minPos.getD i 0 ≤ s.nowPos.getD i 0) (hn2 : s.nowPos.getD i 0 ≤ s.maxPos.getD i 0) :
    s.minPos.getD i 0 ≤ (certChannelStep s i).nowPos.getD i 0 ∧
    (certChannelStep s i).nowPos.getD i 0 ≤ s.maxPos.getD i 0 := by
  unfold certChannelStep
  split_ifs with h1 h2
  · rw [getD_set_self _ _ _ _ hlen]
    split_ifs with h3
    · exact ⟨hg1, hg2⟩
    · push_neg at h3
      refine ⟨?_, le_trans h3 hg2⟩
      have hmono : pyRound (s.minPos.getD i 0 : ℚ) ≤
          pyRound (s.bufferPos.getD i 0 + certStep s i) := pyRound_mono (by linarith)
      rwa [pyRound_intCast] at hmono
  · rw [getD_set_self _ _ _ _ hlen]
    split_ifs with h3
    · exact ⟨hg1, hg2⟩
    · push_neg at h3
      refine ⟨le_trans hg1 h3, ?_⟩
      have hmono : pyRound (s.bufferPos.getD i 0 - certStep s i) ≤
          pyRound (s.maxPos.getD i 0 : ℚ) := pyRound_mono (by linarith)
      rwa [pyRound_intCast] at hmono
  · exact ⟨hn1, hn2⟩

theorem auto_interp_in_bounds (last goal m M : ℤ) (steps i : ℕ)
    (h1 : m ≤ last) (h2 : last ≤ M) (h3 : m ≤ goal) (h4 : goal ≤ M)
    (h5 : 0 < steps) (h6 : i + 1 ≤ steps) :
    m ≤ autoInterp last goal steps i ∧ autoInterp last goal steps i ≤ M := by
  have hsq : (0:ℚ) < (steps : ℚ) := by exact_mod_cast h5
  have hiq : ((i:ℚ) + 1) ≤ (steps : ℚ) := by exact_mod_cast h6
  have hiq0 : (0:ℚ) < (i:ℚ) + 1 := by positivity
  have hrw : ((goal : ℚ) - (last : ℚ)) / (steps : ℚ) * ((i : ℚ) + 1) =
      ((goal : ℚ) - (last : ℚ)) * (((i : ℚ) + 1) / (steps : ℚ)) := by ring
  have ht1 : ((i : ℚ) + 1) / (steps : ℚ) ≤ 1 := div_le_one_of_le hiq hsq.le
  have ht0 : (0 : ℚ) ≤ ((i : ℚ) + 1) / (steps : ℚ) := by positivity
  have hql : (m : ℚ) ≤ (last : ℚ) + ((goal : ℚ) - (last : ℚ)) / (steps : ℚ) * ((i : ℚ) + 1) := by
    rw [hrw]
    rcases le_total (last : ℚ) (goal : ℚ) with hc | hc
    · have hm : (m : ℚ) ≤ (last : ℚ) := by exact_mod_cast h1
      have hnn : 0 ≤ ((goal : ℚ) - (last : ℚ)) * (((i : ℚ) + 1) / (steps : ℚ)) :=
        mul_nonneg (by linarith) ht0
      linarith
    · have hm : (m : ℚ) ≤ (goal : ℚ) := by exact_mod_cast h3
      have key := mul_le_mul_of_nonpos_left ht1
        (by linarith : (goal : ℚ) - (last : ℚ) ≤ 0)
      rw [mul_one] at key
      linarith
  have hqr : (last : ℚ) + ((goal : ℚ) - (last : ℚ)) / (steps : ℚ) * ((i : ℚ) + 1) ≤ (M : ℚ) := by
    rw [hrw]
    rcases le_total (last : ℚ) (goal : ℚ) with hc | hc
    · have hm : (goal : ℚ) ≤ (M : ℚ) := by exact_mod_cast h4
      have key := mul_le_mul_of_nonneg_left ht1
        (by linarith : 0 ≤ (goal : ℚ) - (last : ℚ))
      rw [mul_one] at key
      linarith
    · have hm : (last : ℚ) ≤ (M : ℚ) := by exact_mod_cast h2
      have hnp : ((goal : ℚ) - (last : ℚ)) * (((i : ℚ) + 1) / (steps : ℚ)) ≤ 0 :=
        mul_nonpos_of_nonpos_of_nonneg (by linarith) ht0
      linarith
  constructor
  · have := pyRound_mono hql
    rwa [pyRound_intCast] at this
  · have := pyRound_mono hqr
    rwa [pyRound_intCast] at this

theorem moveWiggle_buffer_clamped (s : ServoState)
    (hlen : s.wiggleID < s.bufferPos.length)
    (hmm : (s.minPos.getD s.wiggleID 0 : ℚ) ≤ (s.maxPos.getD s.wiggleID 0 : ℚ)) :
    (s.minPos.getD s.wiggleID 0 : ℚ) ≤ (moveWiggle s).bufferPos.getD s.wiggleID 0 ∧
    (moveWiggle s).bufferPos.getD s.wiggleID 0 ≤ (s.maxPos.getD s.wiggleID 0 : ℚ) := by
  have hres : (moveWiggle s).bufferPos = s.bufferPos.set s.wiggleID
      (if s.bufferPos.getD s.wiggleID 0 + wiggleStep s > (s.maxPos.getD s.wiggleID 0 : ℚ)
        then (s.maxPos.getD s.wiggleID 0 : ℚ)
        else if s.bufferPos.getD s.wiggleID 0 + wiggleStep s < (s.minPos.getD s.wiggleID 0 : ℚ)
          then (s.minPos.getD s.wiggleID 0 : ℚ)
          else s.bufferPos.getD s.wiggleID 0 + wiggleStep s) := by
    simp only [moveWiggle, stopWiggle, posUpdate, pause]
    split_ifs <;> rfl
  rw [hres, getD_set_self _ _ _ _ hlen]
  split_ifs with h1 h2
  · exact ⟨hmm, le_refl _⟩
  · exact ⟨le_refl _, hmm⟩
  · push_neg at h1 h2
    exact ⟨h2, h1⟩

/-- C1 (amended): nowPos stays inside [minPos, maxPos] under cert-regime per
channel ticks (given a non-negative step, in-bounds goal, accumulator and
position) and under auto-regime interpolation ticks; a wiggle tick clamps the
accumulator bufferPos into [minPos, maxPos], but writes the rounding of the
unclamped accumulator into nowPos, which can leave the bounds (see the
counterexample). -/
theorem clamping_invariant_amended :
    (∀ (s : ServoState) (i : ℕ), i < s.nowPos.length → 0 ≤ certStep s i →
      s.minPos.getD i 0 ≤ s.goalPos.getD i 0 → s.goalPos.getD i 0 ≤ s.maxPos.getD i 0 →
      (s.minPos.getD i 0 : ℚ) ≤ s.bufferPos.getD i 0 →
      s.bufferPos.getD i 0 ≤ (s.maxPos.getD i 0 : ℚ) →
      s.minPos.getD i 0 ≤ s.nowPos.getD i 0 → s.nowPos.getD i 0 ≤ s.maxPos.getD i 0 →
      s.minPos.getD i 0 ≤ (certChannelStep s i).nowPos.getD i 0 ∧
      (certChannelStep s i).nowPos.getD i 0 ≤ s.maxPos.getD i 0) ∧
    (∀ (last goal m M : ℤ) (steps i : ℕ), m ≤ last → last ≤ M → m ≤ goal → goal ≤ M →
      0 < steps → i + 1 ≤ steps →
      m ≤ autoInterp last goal steps i ∧ autoInterp last goal steps i ≤ M) ∧
    (∀ s : ServoState, s.wiggleID < s.bufferPos.length →
      (s.minPos.getD s.wiggleID 0 : ℚ) ≤ (s.maxPos.getD s.wiggleID 0 : ℚ) →
      (s.minPos.getD s.wiggleID 0 : ℚ) ≤ (moveWiggle s).bufferPos.getD s.wiggleID 0 ∧
      (moveWiggle s).bufferPos.getD s.wiggleID 0 ≤ (s.maxPos.getD s.wiggleID 0 : ℚ)) :=
  ⟨fun s i a b c d e f g h => cert_channel_step_in_bounds s i a b c d e f g h,
   fun last goal m M steps i a b c d e f => auto_interp_in_bounds last goal m M steps i a b c d e f,
   fun s a b => moveWiggle_buffer_clamped s a b⟩

/-- C1 witness: the amended bounds at concrete states. -/
theorem clamping_invariant_amended_witness :
    (initState.minPos.getD 0 0 ≤ (certChannelStep initState 0).nowPos.getD 0 0 ∧
      (certChannelStep initState 0).nowPos.getD 0 0 ≤ initState.maxPos.getD 0 0) ∧
    ((0:ℤ) ≤ autoInterp 90 120 30 0 ∧ autoInterp 90 120 30 0 ≤ 180) ∧
    ((initState.minPos.getD 0 0 : ℚ) ≤ (moveWiggle initState).bufferPos.getD 0 0 ∧
      (moveWiggle initState).bufferPos.getD 0 0 ≤ (initState.maxPos.getD 0 0 : ℚ)) :=
  ⟨clamping_invariant_amended.1 initState 0 (by norm_num [initState])
      (by norm_num [certStep, pwmGenOut, pyRound, initState])
      (by norm_num [initState]) (by norm_num [initState]) (by norm_num [initState])
      (by norm_num [initState]) (by norm_num [initState]) (by norm_num [initState]),
   clamping_invariant_amended.2.1 90 120 0 180 30 0 (by norm_num) (by norm_num)
      (by norm_num) (by norm_num) (by norm_num) (by norm_num),
   clamping_invariant_amended.2.2 initState (by norm_num [initState]) (by norm_num [initState])⟩

/-! ## Claim C2: oscillation limit stop -/

/-- C2 counterexample: on a channel with max limit 150, singleServo(0, +1, 690)
stops after one tick with nowPos[0] = 152: the loop does stop at the limit and
clamps the accumulator, but the committed position exceeds 150. -/
theorem oscillate_overshoot_cex :
    (wiggleTicks 1 (singleServo
        { initState with maxPos := [150, 180, 180, 180, 180, 180, 180, 180] } 0 1 690)).flagSet
      = false ∧
    (wiggleTicks 1 (singleServo
        { initState with maxPos := [150, 180, 180, 180, 180, 180, 180, 180] } 0 1 690)).maxPos.getD 0 0
      = 150 ∧
    (wiggleTicks 1 (singleServo
        { initState with maxPos := [150, 180, 180, 180, 180, 180, 180, 180] } 0 1 690)).nowPos.getD 0 0
      = 152 := by
  have h1 : wiggleTicks 1 (singleServo
      { initState with maxPos := [150, 180, 180, 180, 180, 180, 180, 180] } 0 1 690) =
      moveWiggle (singleServo
        { initState with maxPos := [150, 180, 180, 180, 180, 180, 180, 180] } 0 1 690) := by
    show (if (singleServo
        { initState with maxPos := [150, 180, 180, 180, 180, 180, 180, 180] } 0 1 690).flagSet
      then wiggleTicks 0 (moveWiggle (singleServo
        { initState with maxPos := [150, 180, 180, 180, 180, 180, 180, 180] } 0 1 690))
      else singleServo
        { initState with maxPos := [150, 180, 180, 180, 180, 180, 180, 180] } 0 1 690) = _
    rfl
  rw [h1]
  norm_num [singleServo, initState, moveWiggle, wiggleStep, pwmGenOut, pyRound,
    stopWiggle, posUpdate, pause, resume]

theorem wiggleTicks_succ (n : ℕ) (s : ServoState) (h : s.flagSet = true) :
    wiggleTicks (n + 1) s = wiggleTicks n (moveWiggle s) := by
  simp only [wiggleTicks, h, if_true]

theorem moveWiggle_stop (s : ServoState)
    (hlenB : s.wiggleID < s.bufferPos.length) (hlenN : s.wiggleID < s.nowPos.length)
    (hmax : s.maxPos.getD s.wiggleID 0 = 150)
    (hmin : (s.minPos.getD s.wiggleID 0 : ℚ) < s.bufferPos.getD s.wiggleID 0)
    (hstep : 0 < wiggleStep s)
    (hcross : (150:ℚ) ≤ s.bufferPos.getD s.wiggleID 0 + wiggleStep s) :
    (moveWiggle s).flagSet = false ∧
    (moveWiggle s).bufferPos.getD s.wiggleID 0 = 150 ∧
    (moveWiggle s).nowPos.getD s.wiggleID 0 =
      pyRound (s.bufferPos.getD s.wiggleID 0 + wiggleStep s) := by
  have hmaxq : (s.maxPos.getD s.wiggleID 0 : ℚ) = 150 := by exact_mod_cast hmax
  simp only [moveWiggle]
  rw [hmaxq]
  rcases eq_or_lt_of_le hcross with heq | hlt
  · rw [if_neg (show ¬ (s.bufferPos.getD s.wiggleID 0 + wiggleStep s > 150) from by
        rw [← heq]; exact lt_irrefl _),
      if_neg (show ¬ (s.bufferPos.getD s.wiggleID 0 + wiggleStep s <
          (s.minPos.getD s.wiggleID 0 : ℚ)) from by push_neg; linarith),
      if_neg (show ¬ (s.bufferPos.getD s.wiggleID 0 + wiggleStep s < 150 ∧
          (s.minPos.getD s.wiggleID 0 : ℚ) < s.bufferPos.getD s.wiggleID 0 + wiggleStep s) from by
        rintro ⟨hcl, -⟩
        rw [← heq] at hcl
        exact lt_irrefl _ hcl)]
    simp only [stopWiggle, posUpdate, pause]
    refine ⟨trivial, ?_, ?_⟩
    · rw [getD_set_self _ _ _ _ hlenB]
      exact heq.symm
    · rw [getD_set_self _ _ _ _ hlenN]
  · rw [if_pos (show s.bufferPos.getD s.wiggleID 0 + wiggleStep s > 150 from hlt),
      if_neg (show ¬ ((150:ℚ) < 150 ∧ (s.minPos.getD s.wiggleID 0 : ℚ) < 150) from by
        rintro ⟨hcl, -⟩
        exact lt_irrefl _ hcl)]
    simp only [stopWiggle, posUpdate, pause]
    refine ⟨trivial, ?_, ?_⟩
    · rw [getD_set_self _ _ _ _ hlenB]
    · rw [getD_set_self _ _ _ _ hlenN]

theorem moveWiggle_continue (s : ServoState)
    (hmax : s.maxPos.getD s.wiggleID 0 = 150)
    (hmin : (s.minPos.getD s.wiggleID 0 : ℚ) < s.bufferPos.getD s.wiggleID 0)
    (hstep : 0 < wiggleStep s)
    (hin : s.bufferPos.getD s.wiggleID 0 + wiggleStep s < 150) :
    moveWiggle s = { s with
      bufferPos := s.bufferPos.set s.wiggleID (s.bufferPos.getD s.wiggleID 0 + wiggleStep s)
      nowPos := s.nowPos.set s.wiggleID (pyRound (s.bufferPos.getD s.wiggleID 0 + wiggleStep s))
      lastPos := s.lastPos.set s.wiggleID (pyRound (s.bufferPos.getD s.wiggleID 0 + wiggleStep s)) } := by
  have hmaxq : (s.maxPos.getD s.wiggleID 0 : ℚ) = 150 := by exact_mod_cast hmax
  simp only [moveWiggle]
  rw [hmaxq]
  rw [if_neg (show ¬ (s.bufferPos.getD s.wiggleID 0 + wiggleStep s > 150) from by
      push_neg; linarith),
    if_neg (show ¬ (s.bufferPos.getD s.wiggleID 0 + wiggleStep s <
        (s.minPos.getD s.wiggleID 0 : ℚ)) from by push_neg; linarith),
    if_pos (show s.bufferPos.getD s.wiggleID 0 + wiggleStep s < 150 ∧
        (s.minPos.getD s.wiggleID 0 : ℚ) < s.bufferPos.getD s.wiggleID 0 + wiggleStep s from
      ⟨hin, by linarith⟩)]

theorem wiggle_reaches_limit (wid : ℕ) (st : ℚ) :
    ∀ (k : ℕ) (s : ServoState), s.wiggleID = wid → wiggleStep s = st →
      s.flagSet = true → 0 < st → s.maxPos.getD wid 0 = 150 →
      (s.minPos.getD wid 0 : ℚ) < s.bufferPos.getD wid 0 →
      s.bufferPos.getD wid 0 ≤ 150 →
      wid < s.bufferPos.length → wid < s.nowPos.length →
      (150:ℚ) - s.bufferPos.getD wid 0 ≤ k * st →
      ∃ n, (wiggleTicks n s).flagSet = false ∧
        (wiggleTicks n s).bufferPos.getD wid 0 = 150 ∧
        150 ≤ (wiggleTicks n s).nowPos.getD wid 0 ∧
        ((wiggleTicks n s).nowPos.getD wid 0 : ℚ) ≤ 150 + st + 1/2 := by
  have stopCase : ∀ s : ServoState, s.wiggleID = wid → wiggleStep s = st →
      s.flagSet = true → 0 < st → s.maxPos.getD wid 0 = 150 →
      (s.minPos.getD wid 0 : ℚ) < s.bufferPos.getD wid 0 →
      s.bufferPos.getD wid 0 ≤ 150 →
      wid < s.bufferPos.length → wid < s.nowPos.length →
      (150:ℚ) ≤ s.bufferPos.getD wid 0 + st →
      ∃ n, (wiggleTicks n s).flagSet = false ∧
        (wiggleTicks n s).bufferPos.getD wid 0 = 150 ∧
        150 ≤ (wiggleTicks n s).nowPos.getD wid 0 ∧
        ((wiggleTicks n s).nowPos.getD wid 0 : ℚ) ≤ 150 + st + 1/2 := by
    intro s hwid hst hflag hstp hmax hmin hb hlB hlN hcross
    subst hwid
    subst hst
    refine ⟨1, ?_⟩
    have h1 : wiggleTicks 1 s = moveWiggle s := by
      rw [wiggleTicks_succ 0 s hflag]
      rfl
    rw [h1]
    obtain ⟨f1, f2, f3⟩ := moveWiggle_stop s hlB hlN hmax hmin hstp hcross
    refine ⟨f1, f2, ?_, ?_⟩
    · rw [f3]
      exact int_le_pyRound_of_le (by push_cast; linarith)
    · rw [f3]
      have := pyRound_le (s.bufferPos.getD s.wiggleID 0 + wiggleStep s)
      linarith
  intro k
  induction k with
  | zero =>
    intro s hwid hst hflag hstp hmax hmin hb hlB hlN hmeas
    refine stopCase s hwid hst hflag hstp hmax hmin hb hlB hlN ?_
    push_cast at hmeas
    linarith
  | succ k ih =>
    intro s hwid hst hflag hstp hmax hmin hb hlB hlN hmeas
    by_cases hcross : (150:ℚ) ≤ s.bufferPos.getD wid 0 + st
    · exact stopCase s hwid hst hflag hstp hmax hmin hb hlB hlN hcross
    · push_neg at hcross
      subst hwid
      subst hst
      have hcont := moveWiggle_continue s hmax hmin hstp hcross
      have hb1 : (moveWiggle s).bufferPos.getD s.wiggleID 0 =
          s.bufferPos.getD s.wiggleID 0 + wiggleStep s := by
        rw [hcont]
        exact getD_set_self _ _ _ _ hlB
      obtain ⟨n, p1, p2, p3, p4⟩ := ih (moveWiggle s)
        (by rw [hcont]) (by rw [hcont]; rfl) (by rw [hcont]; exact hflag) hstp
        (by rw [hcont]; exact hmax)
        (by rw [hcont] at hb1 ⊢; rw [hb1]; show (s.minPos.getD s.wiggleID 0 : ℚ) < _; linarith)
        (by rw [hb1]; linarith)
        (by rw [hcont]; simpa using hlB)
        (by rw [hcont]; simpa using hlN)
        (by rw [hb1]; push_cast at hmeas ⊢; linarith)
      refine ⟨n + 1, ?_, ?_, ?_, ?_⟩ <;> rw [wiggleTicks_succ n s hflag]
      · exact p1
      · exact p2
      · exact p3
      · exact p4

/-- C2 (amended): oscillation toward a channel max limit of 150 with a
positive per-tick step does autonomously stop in finitely many ticks, with
the accumulator bufferPos clamped to exactly 150; but the committed position
nowPos at the stop is the rounding of the unclamped accumulator: it is at
least 150 and can exceed 150 by up to the per-tick step (as the
counterexample shows), rather than always equalling 150. -/
theorem oscillate_limit_stop_amended (s : ServoState)
    (hflag : s.flagSet = true) (hstep : 0 < wiggleStep s)
    (hmax : s.maxPos.getD s.wiggleID 0 = 150)
    (hmin : (s.minPos.getD s.wiggleID 0 : ℚ) < s.bufferPos.getD s.wiggleID 0)
    (hb : s.bufferPos.getD s.wiggleID 0 ≤ 150)
    (hlB : s.wiggleID < s.bufferPos.length) (hlN : s.wiggleID < s.nowPos.length) :
    ∃ n, (wiggleTicks n s).flagSet = false ∧
      (wiggleTicks n s).bufferPos.getD s.wiggleID 0 = 150 ∧
      150 ≤ (wiggleTicks n s).nowPos.getD s.wiggleID 0 ∧
      ((wiggleTicks n s).nowPos.getD s.wiggleID 0 : ℚ) ≤ 150 + wiggleStep s + 1/2 := by
  obtain ⟨k, hk⟩ := exists_nat_ge ((150 - s.bufferPos.getD s.wiggleID 0) / wiggleStep s)
  have hmeas : (150:ℚ) - s.bufferPos.getD s.wiggleID 0 ≤ k * wiggleStep s := by
    rw [div_le_iff hstep] at hk
    linarith
  exact wiggle_reaches_limit s.wiggleID (wiggleStep s) k s rfl rfl hflag hstep hmax hmin hb
    hlB hlN hmeas

/-- C2 witness: singleServo(0, +1, 10) on a channel with max limit 150. -/
theorem oscillate_limit_stop_amended_witness :
    ∃ n, (wiggleTicks n (singleServo
        { initState with maxPos := [150, 180, 180, 180, 180, 180, 180, 180] } 0 1 10)).flagSet
        = false ∧
      (wiggleTicks n (singleServo
        { initState with maxPos := [150, 180, 180, 180, 180, 180, 180, 180] } 0 1 10)).bufferPos.getD
        (singleServo
          { initState with maxPos := [150, 180, 180, 180, 180, 180, 180, 180] } 0 1 10).wiggleID 0
        = 150 ∧
      150 ≤ (wiggleTicks n (singleServo
        { initState with maxPos := [150, 180, 180, 180, 180, 180, 180, 180] } 0 1 10)).nowPos.getD
        (singleServo
          { initState with maxPos := [150, 180, 180, 180, 180, 180, 180, 180] } 0 1 10).wiggleID 0 ∧
      ((wiggleTicks n (singleServo
        { initState with maxPos := [150, 180, 180, 180, 180, 180, 180, 180] } 0 1 10)).nowPos.getD
        (singleServo
          { initState with maxPos := [150, 180, 180, 180, 180, 180, 180, 180] } 0 1 10).wiggleID 0 : ℚ)
        ≤ 150 + wiggleStep (singleServo
          { initState with maxPos := [150, 180, 180, 180, 180, 180, 180, 180] } 0 1 10) + 1/2 :=
  oscillate_limit_stop_amended
    (singleServo { initState with maxPos := [150, 180, 180, 180, 180, 180, 180, 180] } 0 1 10)
    rfl
    (by norm_num [singleServo, initState, wiggleStep, pwmGenOut, pyRound, resume, posUpdate])
    (by norm_num [singleServo, initState, resume, posUpdate])
    (by norm_num [singleServo, initState, resume, posUpdate])
    (by norm_num [singleServo, initState, resume, posUpdate])
    (by norm_num [singleServo, initState, resume, posUpdate])
    (by norm_num [singleServo, initState, resume, posUpdate])

/-! ## Claim C5: the concrete speed-paced scenario -/

theorem certScenarioStart_eq : certScenarioStart = certStateAt 90 90 := by
  norm_num [certScenarioStart, certScenarioBase, certEntry, certSpeed, speedUpdate,
    newGoalFor, pwmGenOut, pyRound, resume, initState, certStateAt]

theorem certTick_scenario_step (b : ℚ) (v : ℤ) (hv : 60 < v) :
    certTick (certStateAt b v) =
      certStateAt (b - 9/50) (if pyRound (b - 9/50) < 60 then 60 else pyRound (b - 9/50)) := by
  have hnv : ¬ (v < 60) := by omega
  have hvne : v ≠ 60 := by omega
  have hne : (certStateAt b v).nowPos ≠ (certStateAt b v).goalPos := by
    simp [certStateAt, hvne]
  have hp2 : pyRound (2 : ℚ) = 2 := by norm_num [pyRound]
  have hrange : List.range servo_num = [0, 1, 2, 3, 4, 5, 6, 7] := by
    norm_num [servo_num, List.range_succ]
  unfold certTick
  rw [if_pos hne, hrange]
  norm_num [certChannels, certChannelStep, certStep, pwmGenOut, posUpdate, certStateAt,
    hv, hnv, hp2]

theorem certTick_scenario_done (b : ℚ) :
    certTick (certStateAt b 60) = pause (certStateAt b 60) := by
  unfold certTick
  rw [if_neg (by simp [certStateAt])]

theorem certTick_scenario_stable (b : ℚ) :
    certTick (pause (certStateAt b 60)) = pause (certStateAt b 60) := by
  unfold certTick
  rw [if_neg (by simp [certStateAt, pause])]
  rfl

theorem vFun_gt_60 (n : ℕ) (hn : n ≤ 163) : 60 < vFun n := by
  by_cases h0 : n = 0
  · subst h0
    norm_num [vFun]
  · have hcast : (n:ℚ) ≤ 163 := by exact_mod_cast hn
    have hmul : (n:ℚ) * (9/50) ≤ 163 * (9/50) :=
      mul_le_mul_of_nonneg_right hcast (by norm_num)
    have h1 := le_pyRound (90 - n * (9/50))
    have h2 : (60:ℚ) < (pyRound (90 - (n:ℚ) * (9/50)) : ℚ) := by linarith
    have hpr : (60:ℤ) < pyRound (90 - (n:ℚ) * (9/50)) := by exact_mod_cast h2
    simp only [vFun, if_neg h0]
    rw [if_neg (by omega)]
    exact hpr

theorem certRun_formula : ∀ n : ℕ, n ≤ 164 →
    certTick^[n] certScenarioStart = certStateAt (90 - n * (9/50)) (vFun n) := by
  intro n
  induction n with
  | zero =>
    intro _
    rw [Function.iterate_zero_apply, certScenarioStart_eq]
    norm_num [vFun]
  | succ n ih =>
    intro hn
    have hn' : n ≤ 164 := by omega
    rw [Function.iterate_succ_apply', ih hn', certTick_scenario_step _ _ (vFun_gt_60 n (by omega))]
    have harg : (90:ℚ) - (n:ℚ) * (9/50) - 9/50 = 90 - ((n:ℕ)+1 : ℕ) * (9/50) := by
      push_cast
      ring
    rw [harg]
    have hval : (if pyRound ((90:ℚ) - ((n:ℕ)+1 : ℕ) * (9/50)) < 60 then (60:ℤ)
        else pyRound ((90:ℚ) - ((n:ℕ)+1 : ℕ) * (9/50))) = vFun (n+1) := by
      rw [vFun, if_neg (by omega : ¬ (n+1 = 0))]
    rw [hval]

theorem certRun_164 :
    certTick^[164] certScenarioStart = certStateAt (90 - 164 * (9/50)) 60 := by
  rw [certRun_formula 164 le_rfl, show vFun 164 = 60 from by norm_num [vFun, pyRound]]
  norm_num

theorem certRun_tail : ∀ m : ℕ, certTick^[165 + m] certScenarioStart =
    pause (certStateAt (90 - 164 * (9/50)) 60) := by
  intro m
  induction m with
  | zero =>
    show certTick^[164 + 1] certScenarioStart = _
    rw [Function.iterate_succ_apply', certRun_164, certTick_scenario_done]
  | succ m ih =>
    rw [show 165 + (m+1) = (165 + m) + 1 from by omega, Function.iterate_succ_apply', ih,
      certTick_scenario_stable]

/-- C5: with channel 0 defaults init=90, min=0, max=180 and direction -1,
certSpeed([0], [+30], [2]) sets the goal to 60 (the direction sign inverts
the +30 delta), and the speed-paced moveCert tick loop takes the position
from 90 down to exactly 60 in finitely many ticks (the loop then pauses),
never moving below 60 at any tick. -/
theorem cert_speed_scenario :
    (certSpeed certScenarioBase [0] [30] [2]).goalPos.getD 0 0 = 60 ∧
    certScenarioStart.nowPos.getD 0 0 = 90 ∧
    (∀ n : ℕ, 60 ≤ (certTick^[n] certScenarioStart).nowPos.getD 0 0) ∧
    ∃ n : ℕ, (certTick^[n] certScenarioStart).nowPos.getD 0 0 = 60 ∧
      (certTick^[n] certScenarioStart).flagSet = false := by
  refine ⟨?_, ?_, ?_, ⟨165, ?_, ?_⟩⟩
  · norm_num [certSpeed, certScenarioBase, initState, speedUpdate, newGoalFor, pwmGenOut,
      pyRound, resume]
  · rw [certScenarioStart_eq]
    norm_num [certStateAt]
  · intro n
    rcases le_or_lt n 164 with hn | hn
    · rw [certRun_formula n hn]
      have hvge : 60 ≤ vFun n := by
        rw [vFun]
        split_ifs <;> omega
      simpa [certStateAt] using hvge
    · obtain ⟨m, rfl⟩ : ∃ m, n = 165 + m := ⟨n - 165, by omega⟩
      rw [certRun_tail m]
      norm_num [pause, certStateAt]
  · rw [show (165:ℕ) = 165 + 0 from rfl, certRun_tail 0]
    norm_num [pause, certStateAt]
  · rw [show (165:ℕ) = 165 + 0 from rfl, certRun_tail 0]
    norm_num [pause, certStateAt]

/-- C9 witness: direction 0 at motor speed 50. -/
theorem signed_speed_amended_witness :
    signed_speed 0 (PyInput.num 50) = clamp_speed_value (PyInput.num 50) ∧
    -100 ≤ signed_speed 0 (PyInput.num 50) :=
  ⟨(signed_speed_amended 0 (PyInput.num 50)).2.2.2.1 (by norm_num),
   (signed_speed_amended 0 (PyInput.num 50)).1⟩
